import Mathlib

/-!
Verification of the MiOrganizador habit-tracking logic (a React Native app).

Shallow embedding conventions:

* A canonical day identifier (`ISODate`, string form `YYYY-MM-DD`) is represented
  by its absolute day number (`Int`, days since 1970-01-01 in the proleptic
  Gregorian calendar, the calendar used by the JavaScript `Date` object).
  `toISODate` / `parseISO` on canonical strings are mutually inverse bijections
  with day numbers, so day-identifier equality is `Int` equality and the
  calendar-level `addDays` (via `setDate`, which normalizes overflow by exact
  day arithmetic) is `Int` addition.
* The host clock: `parseISO` produces the local-midnight instant of a day, so
  `getTime` of day `d` is `dayMs * d - off d` milliseconds, where `off d` is the
  UTC offset (in ms) of the host timezone at that local midnight.  The function
  `off` is a parameter of the embedding; daylight-saving transitions are
  modelled by `off` taking different values on different days.
* JavaScript objects are association lists (`objGet` / `objSet`); the spread
  update `\x7b...obj, [k]: v\x7d` replaces the value of an existing key in place and
  appends a fresh key at the end, exactly as `objSet` does.
* The status stored for an (activity, day) cell has TypeScript type
  `"done" | "missed" | null`; it is embedded as `Option VStatus`.  A cell can
  therefore be absent (no key) or present with an explicit `null` value, and
  the read `s?.[id]?.[day] ?? null` (`getStatus`) conflates the two, while
  `storedCell` distinguishes them.
-/

namespace MiOrganizador

/-- The non-null statuses, TypeScript `Exclude<Status, null>` = `"done" | "missed"`. -/
inductive VStatus where
  | done
  | missed
deriving DecidableEq

/-- `type Activity = \x7b id: string; name: string \x7d`. -/
structure Activity where
  id : String
  name : String
deriving DecidableEq

/-- Inner record of a `StatusByDate` object: day identifier to status
(`Record<ISODate, Exclude<Status, null> | null>`), keys as absolute day numbers. -/
abbrev DayMap := List (Int × Option VStatus)

/-- `type StatusByDate = Record<string, Record<ISODate, Exclude<Status, null> | null>>`. -/
abbrev StatusByDate := List (String × DayMap)

/-- Property read `obj[k]` of a JavaScript object modelled as an association list. -/
def objGet {κ α : Type} [DecidableEq κ] : List (κ × α) → κ → Option α
  | [], _ => none
  | p :: rest, key => if p.1 = key then some p.2 else objGet rest key

/-- Object spread update `\x7b...obj, [key]: val\x7d`: replaces the value of an existing
key in place, appends a fresh key at the end. -/
def objSet {κ α : Type} [DecidableEq κ] (l : List (κ × α)) (key : κ) (val : α) :
    List (κ × α) :=
  if l.any (fun p => decide (p.1 = key)) then
    l.map (fun p => if p.1 = key then (key, val) else p)
  else l ++ [(key, val)]

/-- The raw stored cell `s?.[id]?.[day]`: `none` when the key is absent,
`some none` when an explicit `null` is stored. -/
def storedCell (s : StatusByDate) (id : String) (day : Int) : Option (Option VStatus) :=
  (objGet s id).bind (fun m => objGet m day)

/-- The read `s?.[id]?.[day] ?? null` used everywhere in the source: an absent
key and an explicit `null` both read as `null` (`none`). -/
def getStatus (s : StatusByDate) (id : String) (day : Int) : Option VStatus :=
  (storedCell s id day).join

/-- The write `\x7b...next, [id]: \x7b...(next[id] || \x7b\x7d), [day]: v\x7d\x7d`. -/
def setStatus (s : StatusByDate) (id : String) (day : Int) (v : Option VStatus) :
    StatusByDate :=
  objSet s id (objSet ((objGet s id).getD []) day v)

-- -------- calendar-day codec ----------

/-- Milliseconds in 24 hours, the constant `1000 * 60 * 60 * 24` of `diffDays`. -/
def dayMs : Int := 86400000

/-- JavaScript `Math.round (num / den)` for `den > 0`: rounds to the nearest
integer, halves toward positive infinity. -/
def jsRound (num den : Int) : Int := (2 * num + den).fdiv (2 * den)

/-- `parseISO(iso).getTime()`: the epoch milliseconds of local midnight of day
`d`, where `off d` is the host UTC offset (ms) in effect at that midnight. -/
def getTime (off : Int → Int) (d : Int) : Int := dayMs * d - off d

/-- `diffDays`: `Math.round((b - a) / (1000*60*60*24))` on the local-midnight
instants of the two days. -/
def diffDays (off : Int → Int) (a b : Int) : Int :=
  jsRound (getTime off b - getTime off a) dayMs

/-- Hinnant's `days_from_civil`: absolute day number (days since 1970-01-01,
proleptic Gregorian) of year `y`, month `m` (1..12 after normalization), day
`d` (arbitrary, day overflow is plain day arithmetic, as in JS `Date`). -/
def daysFromCivil (y m d : Int) : Int :=
  let y' := if m ≤ 2 then y - 1 else y
  let era := y'.fdiv 400
  let yoe := y' - era * 400
  let mp := (m + 9).fmod 12
  let doy := (153 * mp + 2).fdiv 5 + d - 1
  let doe := yoe * 365 + yoe.fdiv 4 - yoe.fdiv 100 + doy
  era * 146097 + doe - 719468

/-- `new Date(year, monthIndex0, d)` at local midnight, as an absolute day
number: the JS `Date` constructor normalizes month overflow into the year and
day overflow by day arithmetic. -/
def jsDateAbs (year monthIndex0 d : Int) : Int :=
  daysFromCivil (year + monthIndex0.fdiv 12) (monthIndex0.fmod 12 + 1) d

/-- `daysInMonth`: `new Date(year, monthIndex0 + 1, 0).getDate()`.  Day 0 of the
next month is the last day of this month, and its day-of-month equals the
difference between the first days of the two months. -/
def daysInMonth (year monthIndex0 : Int) : Int :=
  jsDateAbs year (monthIndex0 + 1) 1 - jsDateAbs year monthIndex0 1

-- -------- cierre automático (closeMissingDays) ----------

/-- The inner `for (const a of activities)` body of `closeMissingDays` for one
day: mark `missed` every activity whose cell for that day reads `null`. -/
def closeDay (activities : List Activity) (dayISO : Int) (next : StatusByDate) :
    StatusByDate :=
  activities.foldl
    (fun n a =>
      if getStatus n a.id dayISO = none then setStatus n a.id dayISO (some .missed)
      else n)
    next

/-- The outer `for (let i = 1; i <= days; i++)` loop of `closeMissingDays`,
over the list of loop indices, with the `if (dayISO === todayISO) break`. -/
def closeLoop (activities : List Activity) (lc todayISO : Int) :
    List Int → StatusByDate → StatusByDate
  | [], next => next
  | i :: rest, next =>
    if lc + i = todayISO then next
    else closeLoop activities lc todayISO rest (closeDay activities (lc + i) next)

/-- The consecutive integers `s, s+1, ..., s+n-1` (loop index list). -/
def rangeFrom (s : Int) : Nat → List Int
  | 0 => []
  | n + 1 => s :: rangeFrom (s + 1) n

/-- `closeMissingDays` (the reconciliation engine), parameterized by the host
timezone offset function `off` used by `diffDays`. -/
def closeMissingDays (off : Int → Int) (activities : List Activity)
    (statusByDate : StatusByDate) (lastClosedISO : Option Int) (todayISO : Int) :
    StatusByDate × Int :=
  match lastClosedISO with
  | none => (statusByDate, todayISO)
  | some lc =>
    let days := diffDays off lc todayISO
    if days ≤ 0 then (statusByDate, lc)
    else (closeLoop activities lc todayISO (rangeFrom 1 days.toNat) statusByDate, todayISO)

-- -------- serie mensual (buildMonthlySeries) ----------

/-- `buildMonthlySeries` of the current source: one label and one value per day
of the month; days after `today` (compared as `Date` instants) yield `null`,
other days count the `"done"` entries over `Object.keys(statusByDate)`. -/
def buildMonthlySeries (off : Int → Int) (year monthIndex0 : Int)
    (statusByDate : StatusByDate) (todayISO : Int) :
    List String × List (Option Nat) :=
  let totalDays := (daysInMonth year monthIndex0).toNat
  let labels := (List.range totalDays).map (fun i => toString (i + 1))
  let activityIds := statusByDate.map Prod.fst
  let data := (List.range totalDays).map (fun (i : Nat) =>
    let d := jsDateAbs year monthIndex0 ((i : Int) + 1)
    if getTime off todayISO < getTime off d then none
    else some (activityIds.countP
      (fun id => decide (getStatus statusByDate id d = some .done))))
  (labels, data)

-- -------- user-facing state mutation ----------

/-- `cycleTodayStatus`: `current === "done" ? null : "done"`. -/
def cycleTodayStatus (current : Option VStatus) : Option VStatus :=
  if current = some .done then none else some .done

/-- `onPressCell`: only cells of `todayISO` are mutable; the pressed cell is
written with `cycleTodayStatus` of its current read. -/
def onPressCell (todayISO : Int) (prev : StatusByDate) (activityId : String)
    (iso : Int) : StatusByDate :=
  if iso ≠ todayISO then prev
  else setStatus prev activityId iso (cycleTodayStatus (getStatus prev activityId iso))

/-- `type PersistedState`. -/
structure PersistedState where
  activities : List Activity
  statusByDate : StatusByDate
  lastClosedISO : Option Int

/-- `addActivity`: reject blank names, otherwise prepend a fresh activity (the
random `uid()` is passed as a parameter).  Only `activities` changes. -/
def addActivity (newId newName : String) (st : PersistedState) : PersistedState :=
  if newName.trim = "" then st
  else ⟨⟨newId, newName.trim⟩ :: st.activities, st.statusByDate, st.lastClosedISO⟩

/-- `deleteActivity` (the confirmed branch of the alert): filter the activity
out of the list.  `statusByDate` is untouched: history is kept. -/
def deleteActivity (activityId : String) (st : PersistedState) : PersistedState :=
  ⟨st.activities.filter (fun a => a.id ≠ activityId), st.statusByDate, st.lastClosedISO⟩

-- -------- string-level parseISO (for the malformed-input claim) ----------

/-- JavaScript `iso.split("-")` on the character list of the string: splits at
every dash, keeping empty groups (so the empty string yields one empty group). -/
def splitDash : List Char → List (List Char)
  | [] => [[]]
  | c :: rest =>
    match splitDash rest with
    | [] => [[c]]
    | g :: gs => if c = '-' then [] :: g :: gs else (c :: g) :: gs

/-- Numeric value of a digit group, most significant digit first. -/
def digitsVal (cs : List Char) : Nat :=
  cs.foldl (fun n c => 10 * n + (c.toNat - 48)) 0

/-- JavaScript `Number(s)` restricted to the integer-literal fragment relevant
to date strings: the empty string converts to `0`, a digit string to its value,
anything else to `NaN` (`none`). -/
def jsNumber (cs : List Char) : Option Int :=
  if cs = [] then some 0
  else if cs.all Char.isDigit then some (digitsVal cs : Int)
  else none

/-- `parseISO` at string level: split on `-`, convert with `Number`, build
`new Date(y, m - 1, d)`.  A `NaN` (or missing, i.e. `undefined`) component
makes the `Date` invalid (`none`); otherwise the constructor silently
normalizes out-of-range components.  No exception is ever raised and no
`MalformedDateError` exists anywhere in the source. -/
def parseISOStr (s : String) : Option Int :=
  let parts := (splitDash s.data).map jsNumber
  match parts.getD 0 none, parts.getD 1 none, parts.getD 2 none with
  | some y, some m, some d => some (jsDateAbs y (m - 1) d)
  | _, _, _ => none

/-- Modelled from the spec: the well-formedness predicate of §7 for day
identifiers — `YYYY-MM-DD`, each component numeric and in range (month 1..12,
day within the month).  The source has no such check; this is the claim side
of the error-handling claim. -/
def specWellFormedISO (s : String) : Bool :=
  match splitDash s.data with
  | [ys, ms, ds] =>
    ys.length = 4 && ms.length = 2 && ds.length = 2 &&
    ys.all Char.isDigit && ms.all Char.isDigit && ds.all Char.isDigit &&
    1 ≤ digitsVal ms && digitsVal ms ≤ 12 && 1 ≤ digitsVal ds &&
    (digitsVal ds : Int) ≤ daysInMonth (digitsVal ys : Int) ((digitsVal ms : Int) - 1)
  | _ => false

end MiOrganizador

namespace MiOrganizador

section ObjLemmas

variable {κ α : Type} [DecidableEq κ]

theorem objGet_of_any_eq_false {l : List (κ × α)} {k : κ}
    (h : l.any (fun p => decide (p.1 = k)) = false) : objGet l k = none := by
  induction l with
  | nil => rfl
  | cons p rest ih =>
    simp only [List.any_cons, Bool.or_eq_false_iff, decide_eq_false_iff_not] at h
    simp only [objGet, if_neg h.1]
    exact ih h.2

theorem objGet_map_replace_ne {l : List (κ × α)} {k k' : κ} {v : α} (h : k' ≠ k) :
    objGet (l.map (fun p => if p.1 = k then (k, v) else p)) k' = objGet l k' := by
  induction l with
  | nil => rfl
  | cons p rest ih =>
    obtain ⟨a, b⟩ := p
    simp only [List.map_cons]
    by_cases ha : a = k
    · subst ha
      simp only [objGet, if_pos rfl]
      rw [if_neg (fun hh => h hh.symm), if_neg (fun hh => h hh.symm)]
      exact ih
    · simp only [objGet, if_neg ha]
      by_cases ha' : a = k'
      · rw [if_pos ha', if_pos ha']
      · rw [if_neg ha', if_neg ha']
        exact ih

theorem objGet_map_replace_mem {l : List (κ × α)} {k : κ} {v : α}
    (h : l.any (fun p => decide (p.1 = k)) = true) :
    objGet (l.map (fun p => if p.1 = k then (k, v) else p)) k = some v := by
  induction l with
  | nil => simp at h
  | cons p rest ih =>
    obtain ⟨a, b⟩ := p
    simp only [List.map_cons]
    by_cases ha : a = k
    · subst ha
      simp [objGet]
    · simp only [List.any_cons, Bool.or_eq_true] at h
      rcases h with h | h
      · exact absurd (of_decide_eq_true h) ha
      · simp only [objGet, if_neg ha]
        exact ih h

theorem objGet_append_ne {l : List (κ × α)} {k k' : κ} {v : α} (h : k' ≠ k) :
    objGet (l ++ [(k, v)]) k' = objGet l k' := by
  induction l with
  | nil =>
    simp only [List.nil_append, objGet]
    rw [if_neg (fun hh => h hh.symm)]
  | cons p rest ih =>
    simp only [List.cons_append, objGet]
    by_cases ha : p.1 = k'
    · rw [if_pos ha, if_pos ha]
    · rw [if_neg ha, if_neg ha]
      exact ih

theorem objGet_append_self {l : List (κ × α)} {k : κ} {v : α}
    (h : l.any (fun p => decide (p.1 = k)) = false) :
    objGet (l ++ [(k, v)]) k = some v := by
  induction l with
  | nil => simp [objGet]
  | cons p rest ih =>
    simp only [List.any_cons, Bool.or_eq_false_iff, decide_eq_false_iff_not] at h
    simp only [List.cons_append, objGet, if_neg h.1]
    exact ih h.2

theorem objGet_objSet (l : List (κ × α)) (k : κ) (v : α) (k' : κ) :
    objGet (objSet l k v) k' = if k' = k then some v else objGet l k' := by
  unfold objSet
  by_cases hmem : l.any (fun p => decide (p.1 = k)) = true
  · rw [if_pos hmem]
    by_cases hk : k' = k
    · subst hk
      rw [if_pos rfl]
      exact objGet_map_replace_mem hmem
    · rw [if_neg hk]
      exact objGet_map_replace_ne hk
  · rw [if_neg hmem]
    rw [Bool.not_eq_true] at hmem
    by_cases hk : k' = k
    · subst hk
      rw [if_pos rfl]
      exact objGet_append_self hmem
    · rw [if_neg hk]
      exact objGet_append_ne hk

end ObjLemmas

theorem storedCell_setStatus (s : StatusByDate) (id : String) (day : Int)
    (v : Option VStatus) (id' : String) (day' : Int) :
    storedCell (setStatus s id day v) id' day' =
      if id' = id ∧ day' = day then some v else storedCell s id' day' := by
  unfold storedCell setStatus
  rw [objGet_objSet]
  by_cases hid : id' = id
  · rw [if_pos hid]
    subst hid
    simp only [Option.some_bind]
    rw [objGet_objSet]
    by_cases hd : day' = day
    · subst hd
      simp
    · rw [if_neg hd, if_neg (fun h => hd h.2)]
      cases h : objGet s id' with
      | none => rfl
      | some m => rfl
  · rw [if_neg hid, if_neg (fun h => hid h.1)]

theorem getStatus_setStatus (s : StatusByDate) (id : String) (day : Int)
    (v : Option VStatus) (id' : String) (day' : Int) :
    getStatus (setStatus s id day v) id' day' =
      if id' = id ∧ day' = day then v else getStatus s id' day' := by
  unfold getStatus
  rw [storedCell_setStatus]
  by_cases h : id' = id ∧ day' = day
  · rw [if_pos h, if_pos h]
    rfl
  · rw [if_neg h, if_neg h]

theorem closeDay_cons (a : Activity) (acts : List Activity) (day : Int)
    (next : StatusByDate) :
    closeDay (a :: acts) day next =
      closeDay acts day
        (if getStatus next a.id day = none then setStatus next a.id day (some .missed)
         else next) := rfl

theorem closeDay_getStatus_ne (acts : List Activity) (day : Int) (next : StatusByDate)
    (id : String) (d : Int) (hd : d ≠ day) :
    getStatus (closeDay acts day next) id d = getStatus next id d := by
  induction acts generalizing next with
  | nil => rfl
  | cons a rest ih =>
    rw [closeDay_cons, ih]
    by_cases hg : getStatus next a.id day = none
    · rw [if_pos hg, getStatus_setStatus, if_neg (fun h => hd h.2)]
    · rw [if_neg hg]

theorem closeDay_preserve (acts : List Activity) (day : Int) (next : StatusByDate)
    (id : String) (d : Int) (v : VStatus) (h : getStatus next id d = some v) :
    getStatus (closeDay acts day next) id d = some v := by
  induction acts generalizing next with
  | nil => exact h
  | cons a rest ih =>
    rw [closeDay_cons]
    apply ih
    by_cases hg : getStatus next a.id day = none
    · rw [if_pos hg, getStatus_setStatus]
      by_cases hc : id = a.id ∧ d = day
      · exfalso
        rw [hc.1, hc.2] at h
        rw [h] at hg
        exact Option.noConfusion hg
      · rw [if_neg hc]
        exact h
    · rw [if_neg hg]
      exact h

theorem closeDay_not_mem (acts : List Activity) (day : Int) (next : StatusByDate)
    (id : String) (d : Int) (h : ∀ a ∈ acts, a.id ≠ id) :
    getStatus (closeDay acts day next) id d = getStatus next id d := by
  induction acts generalizing next with
  | nil => rfl
  | cons a rest ih =>
    rw [closeDay_cons, ih _ (fun x hx => h x (List.mem_cons_of_mem a hx))]
    by_cases hg : getStatus next a.id day = none
    · rw [if_pos hg, getStatus_setStatus,
        if_neg (fun hc => h a (List.mem_cons_self a rest) hc.1.symm)]
    · rw [if_neg hg]

theorem closeDay_hit (acts : List Activity) (day : Int) (next : StatusByDate)
    (id : String) (hmem : ∃ a ∈ acts, a.id = id)
    (hnone : getStatus next id day = none) :
    getStatus (closeDay acts day next) id day = some .missed := by
  induction acts generalizing next with
  | nil => simp at hmem
  | cons a rest ih =>
    rw [closeDay_cons]
    by_cases ha : a.id = id
    · rw [ha, if_pos hnone]
      apply closeDay_preserve
      rw [getStatus_setStatus, if_pos ⟨rfl, rfl⟩]
    · have hrest : ∃ x ∈ rest, x.id = id := by
        rcases hmem with ⟨x, hx, hxid⟩
        rcases List.mem_cons.mp hx with rfl | hx'
        · exact absurd hxid ha
        · exact ⟨x, hx', hxid⟩
      by_cases hg : getStatus next a.id day = none
      · rw [if_pos hg]
        apply ih _ hrest
        rw [getStatus_setStatus, if_neg (fun hc => ha hc.1.symm)]
        exact hnone
      · rw [if_neg hg]
        exact ih _ hrest hnone

theorem closeDay_getStatus (acts : List Activity) (day : Int) (next : StatusByDate)
    (id : String) (d : Int) :
    getStatus (closeDay acts day next) id d =
      if d = day ∧ (∃ a ∈ acts, a.id = id) ∧ getStatus next id d = none
      then some .missed else getStatus next id d := by
  by_cases hd : d = day
  · subst hd
    by_cases hmem : ∃ a ∈ acts, a.id = id
    · by_cases hnone : getStatus next id d = none
      · rw [if_pos ⟨rfl, hmem, hnone⟩]
        exact closeDay_hit acts d next id hmem hnone
      · rw [if_neg (fun hc => hnone hc.2.2)]
        rcases Option.ne_none_iff_exists'.mp hnone with ⟨v, hv⟩
        rw [hv]
        exact closeDay_preserve acts d next id d v hv
    · rw [if_neg (fun hc => hmem hc.2.1)]
      exact closeDay_not_mem acts d next id d
        (fun a ha hc => hmem ⟨a, ha, hc⟩)
  · rw [if_neg (fun hc => hd hc.1)]
    exact closeDay_getStatus_ne acts day next id d hd

theorem foldDays_getStatus (acts : List Activity) (lc : Int) (l : List Int)
    (next : StatusByDate) (id : String) (d : Int) :
    getStatus (l.foldl (fun n i => closeDay acts (lc + i) n) next) id d =
      if (∃ i ∈ l, lc + i = d) ∧ (∃ a ∈ acts, a.id = id) ∧ getStatus next id d = none
      then some .missed else getStatus next id d := by
  induction l generalizing next with
  | nil => simp
  | cons i l ih =>
    rw [List.foldl_cons, ih, closeDay_getStatus]
    have hcons : (∃ x ∈ i :: l, lc + x = d) ↔ (d = lc + i ∨ ∃ j ∈ l, lc + j = d) := by
      constructor
      · rintro ⟨x, hx, hxd⟩
        rcases List.mem_cons.mp hx with rfl | hx'
        · exact Or.inl hxd.symm
        · exact Or.inr ⟨x, hx', hxd⟩
      · rintro (h | ⟨j, hj, hjd⟩)
        · exact ⟨i, List.mem_cons_self i l, h.symm⟩
        · exact ⟨j, List.mem_cons_of_mem i hj, hjd⟩
    rw [if_congr (iff_of_eq (congrArg (fun p => p ∧ _) (propext hcons))) rfl rfl]
    by_cases hA : ∃ a ∈ acts, a.id = id
    · by_cases hN : getStatus next id d = none
      · by_cases h1 : d = lc + i
        · subst h1
          simp [hA, hN]
        · by_cases hL : ∃ j ∈ l, lc + j = d
          · simp [h1, hA, hN, hL]
          · simp [h1, hA, hN, hL]
      · simp [hA, hN]
    · simp [hA]

theorem closeLoop_no_break (acts : List Activity) (lc todayISO : Int) (l : List Int)
    (next : StatusByDate) (h : ∀ i ∈ l, lc + i ≠ todayISO) :
    closeLoop acts lc todayISO l next =
      l.foldl (fun n i => closeDay acts (lc + i) n) next := by
  induction l generalizing next with
  | nil => rfl
  | cons i l ih =>
    rw [closeLoop, if_neg (h i (List.mem_cons_self i l)), List.foldl_cons]
    exact ih _ (fun j hj => h j (List.mem_cons_of_mem i hj))

theorem closeLoop_break (acts : List Activity) (lc todayISO : Int) (l1 l2 : List Int)
    (j : Int) (next : StatusByDate) (h1 : ∀ x ∈ l1, lc + x ≠ todayISO)
    (h2 : lc + j = todayISO) :
    closeLoop acts lc todayISO (l1 ++ j :: l2) next =
      l1.foldl (fun n i => closeDay acts (lc + i) n) next := by
  induction l1 generalizing next with
  | nil =>
    rw [List.nil_append, closeLoop, if_pos h2, List.foldl_nil]
  | cons x l1 ih =>
    rw [List.cons_append, closeLoop, if_neg (h1 x (List.mem_cons_self x l1)),
      List.foldl_cons]
    exact ih _ (fun y hy => h1 y (List.mem_cons_of_mem x hy))

theorem mem_rangeFrom {i s : Int} {n : Nat} :
    i ∈ rangeFrom s n ↔ s ≤ i ∧ i < s + n := by
  induction n generalizing s with
  | zero => simp [rangeFrom]
  | succ n ih =>
    rw [rangeFrom, List.mem_cons, ih]
    omega

theorem rangeFrom_succ (s : Int) (n : Nat) :
    rangeFrom s (n + 1) = rangeFrom s n ++ [s + n] := by
  induction n generalizing s with
  | zero =>
    simp [rangeFrom]
  | succ n ih =>
    rw [show rangeFrom s (n + 1 + 1) = s :: rangeFrom (s + 1) (n + 1) from rfl, ih,
      show rangeFrom s (n + 1) = s :: rangeFrom (s + 1) n from rfl, List.cons_append]
    norm_num
    ring_nf

theorem diffDays_exact_aux (off : Int → Int) (a b : Int)
    (h : 2 * |off b - off a| < dayMs) : diffDays off a b = b - a := by
  have he1 : off b - off a ≤ |off b - off a| := le_abs_self _
  have he2 : -(off b - off a) ≤ |off b - off a| := neg_le_abs _
  have hdm : dayMs = 86400000 := rfl
  unfold diffDays jsRound getTime
  have hnum : 2 * (dayMs * b - off b - (dayMs * a - off a)) + dayMs
      = (dayMs - 2 * (off b - off a)) + (b - a) * (2 * dayMs) := by ring
  rw [hnum, Int.fdiv_eq_ediv _ (by rw [hdm]; norm_num),
    Int.add_mul_ediv_right _ _ (by rw [hdm]; norm_num),
    Int.ediv_eq_zero_of_lt (by omega) (by omega)]
  ring

theorem diffDays_self (off : Int → Int) (a : Int) : diffDays off a a = 0 := by
  have hdm : dayMs = 86400000 := rfl
  unfold diffDays jsRound getTime
  rw [sub_self, mul_zero, zero_add, Int.fdiv_eq_ediv _ (by rw [hdm]; norm_num),
    Int.ediv_eq_zero_of_lt (by rw [hdm]; norm_num) (by rw [hdm]; norm_num)]

theorem getTime_strictMono (off : Int → Int)
    (hb : ∀ x y : Int, 2 * |off x - off y| < dayMs) {a b : Int} (hab : a < b) :
    getTime off a < getTime off b := by
  have h := hb b a
  have he1 : off b - off a ≤ |off b - off a| := le_abs_self _
  have hdm : dayMs = 86400000 := rfl
  unfold getTime
  have h1 : dayMs * 1 ≤ dayMs * (b - a) := by
    apply mul_le_mul_of_nonneg_left (by omega) (by rw [hdm]; norm_num)
  nlinarith [h1]

theorem getTime_lt_iff (off : Int → Int)
    (hb : ∀ x y : Int, 2 * |off x - off y| < dayMs) (a b : Int) :
    getTime off a < getTime off b ↔ a < b := by
  constructor
  · intro hlt
    by_contra hab
    push_neg at hab
    rcases lt_or_eq_of_le hab with h' | h'
    · exact absurd hlt (not_lt_of_gt (getTime_strictMono off hb h'))
    · rw [h'] at hlt
      exact lt_irrefl _ hlt
  · exact getTime_strictMono off hb

theorem diffDays_eq_sub (off : Int → Int)
    (hb : ∀ x y : Int, 2 * |off x - off y| < dayMs) (a b : Int) :
    diffDays off a b = b - a :=
  diffDays_exact_aux off a b (hb b a)

/-- Master characterization of `closeMissingDays` in the backfill branch: with a
sane clock and `elapsed > 0`, the cursor advances to `today` and a cell changed
only for days strictly between `lastClosed` and `today`, for activity ids in the
list, where the previous read was `null` — those become `missed`. -/
theorem closeMissingDays_char (off : Int → Int) (acts : List Activity)
    (snap : StatusByDate) (lc todayISO : Int)
    (hb : ∀ x y : Int, 2 * |off x - off y| < dayMs)
    (hpos : 0 < diffDays off lc todayISO) :
    (closeMissingDays off acts snap (some lc) todayISO).2 = todayISO ∧
    ∀ id d, getStatus (closeMissingDays off acts snap (some lc) todayISO).1 id d =
      if (lc < d ∧ d < todayISO) ∧ (∃ a ∈ acts, a.id = id) ∧
          getStatus snap id d = none
      then some .missed else getStatus snap id d := by
  have hdiff : diffDays off lc todayISO = todayISO - lc := diffDays_eq_sub off hb lc todayISO
  have hlt : lc < todayISO := by omega
  have hres : closeMissingDays off acts snap (some lc) todayISO =
      (closeLoop acts lc todayISO (rangeFrom 1 (diffDays off lc todayISO).toNat) snap,
        todayISO) := by
    show (if diffDays off lc todayISO ≤ 0 then (snap, lc)
      else (closeLoop acts lc todayISO (rangeFrom 1 (diffDays off lc todayISO).toNat)
        snap, todayISO)) = _
    rw [if_neg (by omega)]
  rw [hres]
  refine ⟨rfl, fun id d => ?_⟩
  have hn : (diffDays off lc todayISO).toNat = (todayISO - lc).toNat := by rw [hdiff]
  have hsplit : rangeFrom 1 (diffDays off lc todayISO).toNat =
      rangeFrom 1 ((todayISO - lc).toNat - 1) ++ [todayISO - lc] := by
    rw [hn]
    have h1 : (todayISO - lc).toNat = ((todayISO - lc).toNat - 1) + 1 := by omega
    rw [h1, rangeFrom_succ]
    have h2 : (1 : Int) + (((todayISO - lc).toNat - 1 : Nat) : Int) = todayISO - lc := by
      omega
    rw [h2]
    have h3 : (todayISO - lc).toNat - 1 + 1 - 1 = (todayISO - lc).toNat - 1 := by omega
    rw [h3]
  rw [hsplit, closeLoop_break acts lc todayISO _ [] _ snap
      (fun x hx => by
        rcases mem_rangeFrom.mp hx with ⟨hx1, hx2⟩
        omega)
      (by omega),
    foldDays_getStatus]
  have hiff : (∃ i ∈ rangeFrom 1 ((todayISO - lc).toNat - 1), lc + i = d) ↔
      (lc < d ∧ d < todayISO) := by
    constructor
    · rintro ⟨i, hi, rfl⟩
      rcases mem_rangeFrom.mp hi with ⟨h1, h2⟩
      omega
    · rintro ⟨h1, h2⟩
      exact ⟨d - lc, mem_rangeFrom.mpr (by omega), by omega⟩
  rw [if_congr (iff_of_eq (congrArg (fun p => p ∧ _) (propext hiff))) rfl rfl]

theorem closeMissingDays_none (off : Int → Int) (acts : List Activity)
    (snap : StatusByDate) (todayISO : Int) :
    closeMissingDays off acts snap none todayISO = (snap, todayISO) := rfl

theorem closeMissingDays_some (off : Int → Int) (acts : List Activity)
    (snap : StatusByDate) (lc todayISO : Int) :
    closeMissingDays off acts snap (some lc) todayISO =
      if diffDays off lc todayISO ≤ 0 then (snap, lc)
      else (closeLoop acts lc todayISO
        (rangeFrom 1 (diffDays off lc todayISO).toNat) snap, todayISO) := rfl

theorem closeLoop_preserve (acts : List Activity) (lc todayISO : Int) (l : List Int)
    (next : StatusByDate) (id : String) (d : Int) (v : VStatus)
    (h : getStatus next id d = some v) :
    getStatus (closeLoop acts lc todayISO l next) id d = some v := by
  induction l generalizing next with
  | nil => exact h
  | cons i l ih =>
    rw [closeLoop]
    by_cases hbrk : lc + i = todayISO
    · rw [if_pos hbrk]
      exact h
    · rw [if_neg hbrk]
      exact ih _ (closeDay_preserve acts (lc + i) next id d v h)

theorem closeMissingDays_preserve (off : Int → Int) (acts : List Activity)
    (snap : StatusByDate) (lcOpt : Option Int) (todayISO : Int) (id : String)
    (d : Int) (v : VStatus) (h : getStatus snap id d = some v) :
    getStatus (closeMissingDays off acts snap lcOpt todayISO).1 id d = some v := by
  cases lcOpt with
  | none =>
    rw [closeMissingDays_none]
    exact h
  | some lc =>
    rw [closeMissingDays_some]
    by_cases hle : diffDays off lc todayISO ≤ 0
    · rw [if_pos hle]
      exact h
    · rw [if_neg hle]
      exact closeLoop_preserve acts lc todayISO _ snap id d v h

/-- Claim C1: with `lastClosed` non-null and `daysBetween(lastClosed, today) > 0`
(and a sane host clock), every day strictly between `lastClosed` and `today` and
every activity in the list ends with a non-absent entry that is either the
pre-existing value or `missed`; and for any day on or after `today` the status
is left exactly as it was, so no `missed` entry is ever added there (today is
never auto-closed). -/
theorem claim1_backfill_complete (off : Int → Int) (acts : List Activity)
    (snap : StatusByDate) (lc todayISO : Int)
    (hb : ∀ x y : Int, 2 * |off x - off y| < dayMs)
    (hpos : 0 < diffDays off lc todayISO) :
    (∀ d, lc < d → d < todayISO → ∀ a ∈ acts,
      getStatus (closeMissingDays off acts snap (some lc) todayISO).1 a.id d ≠ none ∧
      (getStatus (closeMissingDays off acts snap (some lc) todayISO).1 a.id d =
          getStatus snap a.id d ∨
        getStatus (closeMissingDays off acts snap (some lc) todayISO).1 a.id d =
          some .missed)) ∧
    (∀ d, todayISO ≤ d → ∀ id,
      getStatus (closeMissingDays off acts snap (some lc) todayISO).1 id d =
        getStatus snap id d) := by
  obtain ⟨-, hchar⟩ := closeMissingDays_char off acts snap lc todayISO hb hpos
  constructor
  · intro d hd1 hd2 a ha
    rw [hchar]
    by_cases hN : getStatus snap a.id d = none
    · rw [if_pos ⟨⟨hd1, hd2⟩, ⟨a, ha, rfl⟩, hN⟩]
      exact ⟨fun hc => Option.noConfusion hc, Or.inr rfl⟩
    · rw [if_neg (fun hc => hN hc.2.2)]
      exact ⟨hN, Or.inl rfl⟩
  · intro d hd id
    rw [hchar, if_neg (fun hc => absurd hc.1.2 (by omega))]

/-- Claim C2: reconciliation is idempotent for a fixed `today`: feeding the
returned snapshot and cursor back into `closeMissingDays` with the same
activities and the same `today` returns them unchanged. -/
theorem claim2_idempotent (off : Int → Int) (acts : List Activity)
    (snap : StatusByDate) (lcOpt : Option Int) (todayISO : Int) :
    closeMissingDays off acts (closeMissingDays off acts snap lcOpt todayISO).1
        (some (closeMissingDays off acts snap lcOpt todayISO).2) todayISO =
      closeMissingDays off acts snap lcOpt todayISO := by
  cases lcOpt with
  | none =>
    show closeMissingDays off acts snap (some todayISO) todayISO = (snap, todayISO)
    rw [closeMissingDays_some, if_pos (le_of_eq (diffDays_self off todayISO))]
  | some lc =>
    by_cases hle : diffDays off lc todayISO ≤ 0
    · have h1 : closeMissingDays off acts snap (some lc) todayISO = (snap, lc) := by
        rw [closeMissingDays_some, if_pos hle]
      rw [h1]
      show closeMissingDays off acts snap (some lc) todayISO = (snap, lc)
      exact h1
    · have h1 : closeMissingDays off acts snap (some lc) todayISO =
          (closeLoop acts lc todayISO
            (rangeFrom 1 (diffDays off lc todayISO).toNat) snap, todayISO) := by
        rw [closeMissingDays_some, if_neg hle]
      rw [h1]
      show closeMissingDays off acts
        (closeLoop acts lc todayISO
          (rangeFrom 1 (diffDays off lc todayISO).toNat) snap)
        (some todayISO) todayISO = _
      rw [closeMissingDays_some, if_pos (le_of_eq (diffDays_self off todayISO))]

/-- Claim C3 counterexample: a key that is present in the input snapshot with an
explicit `null` value (the state `onPressCell` produces when un-toggling a done
cell) is NOT mapped to the same value by reconciliation — it is overwritten with
`missed`.  Input: one activity `a`, snapshot `\x7b a: \x7b day 1: null \x7d\x7d`,
`lastClosed = 0`, `today = 2`. -/
theorem claim3_counterexample :
    storedCell [("a", [((1 : Int), (none : Option VStatus))])] "a" 1 = some none ∧
    storedCell (closeMissingDays (fun _ => 0) [⟨"a", "A"⟩]
        [("a", [((1 : Int), (none : Option VStatus))])] (some 0) 2).1 "a" 1 ≠
      storedCell [("a", [((1 : Int), (none : Option VStatus))])] "a" 1 := by
  constructor
  · rfl
  · decide

/-- Claim C3 amended: reconciliation never modifies an entry whose stored value
is non-null: every `(activity, day)` key that reads `done` (or `missed`) in the
input snapshot reads the same value in the output, for any cursor and any
`today`; only cells that read `null` (absent key or explicitly stored `null`)
can change. -/
theorem claim3_amended (off : Int → Int) (acts : List Activity)
    (snap : StatusByDate) (lcOpt : Option Int) (todayISO : Int) (id : String)
    (d : Int) (v : VStatus) (h : getStatus snap id d = some v) :
    getStatus (closeMissingDays off acts snap lcOpt todayISO).1 id d = some v :=
  closeMissingDays_preserve off acts snap lcOpt todayISO id d v h

theorem claim3_witness :
    getStatus [("a", [((1 : Int), some VStatus.done)])] "a" 1 = some .done ∧
    getStatus (closeMissingDays (fun _ => 0) [⟨"a", "A"⟩]
        [("a", [((1 : Int), some VStatus.done)])] (some 0) 3).1 "a" 1 =
      some .done :=
  ⟨by decide,
    claim3_amended (fun _ => 0) [⟨"a", "A"⟩] [("a", [((1 : Int), some VStatus.done)])]
      (some 0) 3 "a" 1 VStatus.done (by decide)⟩

/-- Claim C4 counterexample: when the clock rewinds (`lastClosed = 5`,
`today = 3`, so `daysBetween ≤ 0`), the returned cursor is the old
`lastClosed = 5`, which is NOT `≤ today = 3` — the claim's final sentence fails. -/
theorem claim4_counterexample :
    (closeMissingDays (fun _ => 0) [] [] (some 5) 3).2 = 5 ∧
    ¬ (closeMissingDays (fun _ => 0) [] [] (some 5) 3).2 ≤ 3 := by
  constructor
  · decide
  · decide

/-- Claim C4 amended: null cursor returns the snapshot unchanged with cursor
`today` (zero writes); `elapsed ≤ 0` returns snapshot and cursor unchanged;
`elapsed > 0` returns cursor `today`.  The returned cursor is always either
`today` or the input `lastClosed`, hence `≤ today` whenever the input cursor is
null or `≤ today`; a clock rewind (`lastClosed > today`) leaves it at
`lastClosed > today`. -/
theorem claim4_amended (off : Int → Int) (acts : List Activity)
    (snap : StatusByDate) (todayISO : Int) :
    closeMissingDays off acts snap none todayISO = (snap, todayISO) ∧
    (∀ lc, diffDays off lc todayISO ≤ 0 →
      closeMissingDays off acts snap (some lc) todayISO = (snap, lc)) ∧
    (∀ lc, 0 < diffDays off lc todayISO →
      (closeMissingDays off acts snap (some lc) todayISO).2 = todayISO) ∧
    (∀ lc, (closeMissingDays off acts snap (some lc) todayISO).2 = todayISO ∨
      (closeMissingDays off acts snap (some lc) todayISO).2 = lc) ∧
    (∀ lc, lc ≤ todayISO →
      (closeMissingDays off acts snap (some lc) todayISO).2 ≤ todayISO) := by
  have hcase : ∀ lc : Int,
      (closeMissingDays off acts snap (some lc) todayISO).2 = todayISO ∨
      (closeMissingDays off acts snap (some lc) todayISO).2 = lc := by
    intro lc
    rw [closeMissingDays_some]
    by_cases hle : diffDays off lc todayISO ≤ 0
    · rw [if_pos hle]
      exact Or.inr rfl
    · rw [if_neg hle]
      exact Or.inl rfl
  refine ⟨rfl, fun lc hle => ?_, fun lc hpos => ?_, hcase, fun lc hlc => ?_⟩
  · rw [closeMissingDays_some, if_pos hle]
  · rw [closeMissingDays_some, if_neg (by omega)]
  · rcases hcase lc with h | h
    · rw [h]
    · rw [h]
      exact hlc

theorem claim4_witness :
    closeMissingDays (fun _ => 0) [] [] none 7 = ([], 7) ∧
    (diffDays (fun _ => 0) 9 7 ≤ 0 ∧
      closeMissingDays (fun _ => 0) [] [] (some 9) 7 = ([], 9)) ∧
    ((0 : Int) < diffDays (fun _ => 0) 4 7 ∧
      (closeMissingDays (fun _ => 0) [] [] (some 4) 7).2 = 7) ∧
    ((5 : Int) ≤ 7 ∧ (closeMissingDays (fun _ => 0) [] [] (some 5) 7).2 ≤ 7) :=
  ⟨(claim4_amended (fun _ => 0) [] [] 7).1,
    ⟨by decide, (claim4_amended (fun _ => 0) [] [] 7).2.1 9 (by decide)⟩,
    ⟨by decide, (claim4_amended (fun _ => 0) [] [] 7).2.2.1 4 (by decide)⟩,
    ⟨by decide, (claim4_amended (fun _ => 0) [] [] 7).2.2.2.2 5 (by decide)⟩⟩

/-- Claim C5: `diffDays` returns the exact signed count of calendar days from
`a` to `b` (positive iff `b` is later), even when the two local midnights carry
different UTC offsets (a daylight-saving transition inside the interval),
provided the offset difference is under half a day — `Math.round` absorbs the
DST-induced deviation of the raw millisecond delta, so no off-by-one occurs. -/
theorem claim5_diffDays_exact (off : Int → Int) (a b : Int)
    (h : 2 * |off b - off a| < dayMs) : diffDays off a b = b - a :=
  diffDays_exact_aux off a b h

theorem claim5_witness :
    2 * |(fun d : Int => if 1 ≤ d then (3600000 : Int) else 0) 2 -
        (fun d : Int => if 1 ≤ d then (3600000 : Int) else 0) 0| < dayMs ∧
    diffDays (fun d : Int => if 1 ≤ d then (3600000 : Int) else 0) 0 2 = 2 - 0 :=
  ⟨by decide,
    claim5_diffDays_exact (fun d : Int => if 1 ≤ d then (3600000 : Int) else 0) 0 2
      (by decide)⟩

theorem claim1_witness :
    (0 : Int) < diffDays (fun _ => 0) 0 3 ∧
    getStatus (closeMissingDays (fun _ => 0) [⟨"a", "A"⟩] [] (some 0) 3).1 "a" 1 ≠
      none ∧
    getStatus (closeMissingDays (fun _ => 0) [⟨"a", "A"⟩] [] (some 0) 3).1 "a" 3 =
      getStatus [] "a" 3 := by
  have h := claim1_backfill_complete (fun _ => 0) [⟨"a", "A"⟩] [] 0 3
    (fun x y => by norm_num [dayMs]) (by decide)
  exact ⟨by decide,
    (h.1 1 (by norm_num) (by norm_num) ⟨"a", "A"⟩ (List.mem_cons_self _ _)).1,
    h.2 3 (le_refl 3) "a"⟩

theorem buildMonthlySeries_fst (off : Int → Int) (year monthIndex0 : Int)
    (statusByDate : StatusByDate) (todayISO : Int) :
    (buildMonthlySeries off year monthIndex0 statusByDate todayISO).1 =
      (List.range (daysInMonth year monthIndex0).toNat).map
        (fun i => toString (i + 1)) := rfl

theorem buildMonthlySeries_snd (off : Int → Int) (year monthIndex0 : Int)
    (statusByDate : StatusByDate) (todayISO : Int) :
    (buildMonthlySeries off year monthIndex0 statusByDate todayISO).2 =
      (List.range (daysInMonth year monthIndex0).toNat).map (fun (i : Nat) =>
        if getTime off todayISO <
            getTime off (jsDateAbs year monthIndex0 ((i : Int) + 1)) then none
        else some ((statusByDate.map Prod.fst).countP
          (fun id => decide (getStatus statusByDate id
            (jsDateAbs year monthIndex0 ((i : Int) + 1)) = some .done)))) := rfl

/-- Claim C6: for a day on or before `today`, the monthly series value is the
count of `done` entries for that day over ALL activity identifiers present in
the snapshot (the raw `Object.keys`, including orphaned ids), and deleting an
activity — which only filters the live activity list and leaves the snapshot
untouched — does not change the series at all. -/
theorem claim6_orphans_counted (off : Int → Int)
    (hb : ∀ x y : Int, 2 * |off x - off y| < dayMs)
    (year monthIndex0 : Int) (st : PersistedState) (todayISO : Int) (x : String) :
    buildMonthlySeries off year monthIndex0 (deleteActivity x st).statusByDate
        todayISO =
      buildMonthlySeries off year monthIndex0 st.statusByDate todayISO ∧
    ∀ i : Nat, i < (daysInMonth year monthIndex0).toNat →
      jsDateAbs year monthIndex0 ((i : Int) + 1) ≤ todayISO →
      (buildMonthlySeries off year monthIndex0 st.statusByDate todayISO).2[i]? =
        some (some ((st.statusByDate.map Prod.fst).countP
          (fun id => decide (getStatus st.statusByDate id
            (jsDateAbs year monthIndex0 ((i : Int) + 1)) = some .done)))) := by
  refine ⟨rfl, fun i hi hpast => ?_⟩
  rw [buildMonthlySeries_snd, List.getElem?_map, List.getElem?_range hi,
    Option.map_some']
  rw [if_neg (fun hc => absurd ((getTime_lt_iff off hb _ _).mp hc)
    (not_lt_of_ge hpast))]

theorem claim6_witness :
    buildMonthlySeries (fun _ => 0) 2024 0
        (deleteActivity "x"
          ⟨[], [("x", [(daysFromCivil 2024 1 2, some VStatus.done)])],
            none⟩).statusByDate (daysFromCivil 2024 1 15) =
      buildMonthlySeries (fun _ => 0) 2024 0
        [("x", [(daysFromCivil 2024 1 2, some VStatus.done)])]
        (daysFromCivil 2024 1 15) ∧
    (buildMonthlySeries (fun _ => 0) 2024 0
        [("x", [(daysFromCivil 2024 1 2, some VStatus.done)])]
        (daysFromCivil 2024 1 15)).2[1]? = some (some 1) := by
  have h := claim6_orphans_counted (fun _ => 0) (fun x y => by norm_num [dayMs])
    2024 0 ⟨[], [("x", [(daysFromCivil 2024 1 2, some VStatus.done)])], none⟩
    (daysFromCivil 2024 1 15) "x"
  refine ⟨h.1, ?_⟩
  have h2 := h.2 1 (by decide) (by decide)
  rw [h2]
  decide

/-- Claim C7: the monthly series has one label and one value per calendar day of
the month (`daysInMonth` entries each); every day strictly after `today` yields
`null`, and every day on or before `today` yields a (non-negative) count. -/
theorem claim7_series_shape (off : Int → Int)
    (hb : ∀ x y : Int, 2 * |off x - off y| < dayMs)
    (year monthIndex0 : Int) (snap : StatusByDate) (todayISO : Int) :
    (buildMonthlySeries off year monthIndex0 snap todayISO).1.length =
      (daysInMonth year monthIndex0).toNat ∧
    (buildMonthlySeries off year monthIndex0 snap todayISO).2.length =
      (daysInMonth year monthIndex0).toNat ∧
    ∀ i : Nat, i < (daysInMonth year monthIndex0).toNat →
      ((todayISO < jsDateAbs year monthIndex0 ((i : Int) + 1) →
        (buildMonthlySeries off year monthIndex0 snap todayISO).2[i]? =
          some none) ∧
       (jsDateAbs year monthIndex0 ((i : Int) + 1) ≤ todayISO →
        ∃ c : Nat, (buildMonthlySeries off year monthIndex0 snap todayISO).2[i]? =
          some (some c))) := by
  refine ⟨by rw [buildMonthlySeries_fst, List.length_map, List.length_range],
    by rw [buildMonthlySeries_snd, List.length_map, List.length_range],
    fun i hi => ⟨fun hfut => ?_, fun hpast => ?_⟩⟩
  · rw [buildMonthlySeries_snd, List.getElem?_map, List.getElem?_range hi,
      Option.map_some', if_pos ((getTime_lt_iff off hb _ _).mpr hfut)]
  · rw [buildMonthlySeries_snd, List.getElem?_map, List.getElem?_range hi,
      Option.map_some',
      if_neg (fun hc => absurd ((getTime_lt_iff off hb _ _).mp hc)
        (not_lt_of_ge hpast))]
    exact ⟨_, rfl⟩

theorem claim7_witness :
    (buildMonthlySeries (fun _ => 0) 2024 0 [] (daysFromCivil 2024 1 15)).1.length =
      31 ∧
    (∃ c : Nat, (buildMonthlySeries (fun _ => 0) 2024 0 []
        (daysFromCivil 2024 1 15)).2[0]? = some (some c)) ∧
    (buildMonthlySeries (fun _ => 0) 2024 0 []
        (daysFromCivil 2024 1 15)).2[30]? = some none := by
  have h := claim7_series_shape (fun _ => 0) (fun x y => by norm_num [dayMs])
    2024 0 [] (daysFromCivil 2024 1 15)
  exact ⟨h.1.trans (by decide), (h.2.2 0 (by decide)).2 (by decide),
    (h.2.2 30 (by decide)).1 (by decide)⟩

/-- Claim C8 counterexample: toggling a `done` cell of today does NOT remove the
entry — the key stays present, now mapping to an explicit `null` (a value that
is neither `done` nor `missed`).  Input: snapshot `\x7b a: \x7b day 5: done \x7d\x7d`,
today = 5, press cell (a, 5). -/
theorem claim8_counterexample :
    getStatus [("a", [((5 : Int), some VStatus.done)])] "a" 5 = some .done ∧
    storedCell (onPressCell 5 [("a", [((5 : Int), some VStatus.done)])] "a" 5)
        "a" 5 = some none := by
  constructor
  · rfl
  · decide

/-- Claim C8 amended: `onPressCell` ignores any day other than `today`; on
today's cell it stores `cycleTodayStatus` of the current read — in particular a
`done` cell becomes a PRESENT key with an explicit `null` value (it is not
removed; every read treats it as absent through the null-coalescing lookup) and
any other cell becomes `done`; no other cell is affected.  Adding or deleting an
activity leaves the status snapshot untouched, so stored values are always
`done`, `missed` or `null`. -/
theorem claim8_amended (todayISO : Int) (prev : StatusByDate) (id : String)
    (iso : Int) :
    (iso ≠ todayISO → onPressCell todayISO prev id iso = prev) ∧
    (iso = todayISO →
      storedCell (onPressCell todayISO prev id iso) id iso =
        some (cycleTodayStatus (getStatus prev id iso))) ∧
    (iso = todayISO → getStatus prev id iso = some .done →
      storedCell (onPressCell todayISO prev id iso) id iso = some none) ∧
    (∀ id' d', ¬(id' = id ∧ d' = iso) →
      getStatus (onPressCell todayISO prev id iso) id' d' =
        getStatus prev id' d') ∧
    (∀ nid nm : String, ∀ st : PersistedState,
      (addActivity nid nm st).statusByDate = st.statusByDate) ∧
    (∀ aid : String, ∀ st : PersistedState,
      (deleteActivity aid st).statusByDate = st.statusByDate) := by
  refine ⟨fun hne => ?_, fun heq => ?_, fun heq hdone => ?_,
    fun id' d' hne => ?_, fun nid nm st => ?_, fun aid st => rfl⟩
  · unfold onPressCell
    rw [if_pos hne]
  · unfold onPressCell
    rw [if_neg (fun hc => hc heq), storedCell_setStatus, if_pos ⟨rfl, rfl⟩]
  · unfold onPressCell
    rw [if_neg (fun hc => hc heq), storedCell_setStatus, if_pos ⟨rfl, rfl⟩, hdone]
    rfl
  · unfold onPressCell
    by_cases hd : iso ≠ todayISO
    · rw [if_pos hd]
    · rw [if_neg hd, getStatus_setStatus, if_neg hne]
  · unfold addActivity
    by_cases hnm : nm.trim = ""
    · rw [if_pos hnm]
    · rw [if_neg hnm]

theorem claim8_witness :
    onPressCell 5 [("a", [((5 : Int), some VStatus.done)])] "a" 4 =
      [("a", [((5 : Int), some VStatus.done)])] ∧
    storedCell (onPressCell 5 [("a", [((5 : Int), some VStatus.done)])] "a" 5)
        "a" 5 = some none ∧
    (addActivity "n" "Leer" ⟨[], [("a", [((5 : Int), some VStatus.done)])],
        none⟩).statusByDate = [("a", [((5 : Int), some VStatus.done)])] :=
  ⟨(claim8_amended 5 [("a", [((5 : Int), some VStatus.done)])] "a" 4).1
      (by decide),
    (claim8_amended 5 [("a", [((5 : Int), some VStatus.done)])] "a" 5).2.2.1
      rfl (by decide),
    (claim8_amended 5 [("a", [((5 : Int), some VStatus.done)])] "a" 5).2.2.2.2.1
      "n" "Leer" ⟨[], [("a", [((5 : Int), some VStatus.done)])], none⟩⟩

/-- Claim C9 counterexample: the malformed day identifier `2024-13-01` (month 13
is out of range, so the string is not well-formed) is decoded by `parseISO`
without any error: it silently normalizes to the same valid date as
`2025-01-01`.  `parseISO` never fails and no `MalformedDateError` exists in the
source. -/
theorem claim9_counterexample :
    specWellFormedISO ("2024-13-01") = false ∧
    parseISOStr ("2024-13-01") = parseISOStr ("2025-01-01") ∧
    parseISOStr ("2025-01-01") ≠ none := by
  refine ⟨by decide, by decide, by decide⟩

/-- Claim C9 amended: `parseISO` performs no validation and surfaces no error on
malformed day identifiers: a string with numeric but out-of-range components is
silently normalized to a different valid date (`2024-13-01` decodes like
`2025-01-01`), and a non-numeric string silently produces the invalid-date
sentinel (`NaN` components), not an exception. -/
theorem claim9_amended :
    parseISOStr ("2024-13-01") = some (daysFromCivil 2025 1 1) ∧
    parseISOStr ("banana") = none ∧
    specWellFormedISO ("2024-13-01") = false ∧
    specWellFormedISO ("banana") = false := by
  refine ⟨by decide, by decide, by decide, by decide⟩

/-- Claim C10: an entry stored as an explicit `null` (the state produced by
un-toggling a done cell) is treated by reconciliation exactly like an absent
key: for a day strictly between `lastClosed` and `today` and an activity in the
list, it is overwritten with `missed`. -/
theorem claim10_null_overwritten (off : Int → Int) (acts : List Activity)
    (snap : StatusByDate) (lc todayISO d : Int) (id : String)
    (hb : ∀ x y : Int, 2 * |off x - off y| < dayMs)
    (h1 : lc < d) (h2 : d < todayISO)
    (hnull : storedCell snap id d = some none)
    (hid : ∃ a ∈ acts, a.id = id) :
    getStatus (closeMissingDays off acts snap (some lc) todayISO).1 id d =
      some .missed := by
  have hpos : 0 < diffDays off lc todayISO := by
    rw [diffDays_eq_sub off hb]
    omega
  obtain ⟨-, hchar⟩ := closeMissingDays_char off acts snap lc todayISO hb hpos
  rw [hchar, if_pos ⟨⟨h1, h2⟩, hid, by rw [getStatus, hnull]; rfl⟩]

theorem claim10_witness :
    storedCell [("a", [((1 : Int), (none : Option VStatus))])] "a" 1 = some none ∧
    getStatus (closeMissingDays (fun _ => 0) [⟨"a", "A"⟩]
        [("a", [((1 : Int), (none : Option VStatus))])] (some 0) 2).1 "a" 1 =
      some .missed :=
  ⟨by decide,
    claim10_null_overwritten (fun _ => 0) [⟨"a", "A"⟩]
      [("a", [((1 : Int), (none : Option VStatus))])] 0 2 1 "a"
      (fun x y => by norm_num [dayMs]) (by decide) (by decide) (by decide)
      ⟨⟨"a", "A"⟩, List.mem_cons_self _ _, rfl⟩⟩

end MiOrganizador
